import Mathlib

/-!
Shallow embedding of `monitor.py`, a single-file stock-availability monitor.

The program periodically fetches product pages, parses a stock count from the
page text, and sends or edits chat notifications on in-stock / out-of-stock
transitions.  Pure fragments of the Python source are translated into Lean
functions; the effectful fragments (network fetch, chat API, file lock) are
translated into functions over explicit oracle inputs describing the outcome
of each external call, together with event traces recording the calls made.

Text is modelled as `List Char`.  Python's numeric stock quantity (an `int`
from the regex, or `float('inf')`) is modelled as `ℕ∞`: the regex can only
produce non-negative integers, and `float('inf')` compares greater than every
integer, exactly as `⊤ : ℕ∞` does.
-/

/-- Python's `\s` character class, restricted to its ASCII members
(space, tab, newline, carriage return, vertical tab, form feed).
Non-ASCII Unicode whitespace is not modelled. -/
def isSpaceChar (c : Char) : Bool :=
  c == ' ' || c == '\t' || c == '\n' || c == '\r' || c == '\x0b' || c == '\x0c'

/-- Case-insensitive literal match: `ciLeads pat s` holds when `s` starts with
a string that equals `pat` up to `Char.toLower` (models matching the literal
part of the regex under `re.IGNORECASE`). -/
def ciLeads : List Char → List Char → Bool
  | [], _ => true
  | _ :: _, [] => false
  | a :: as, b :: bs => (a.toLower == b.toLower) && ciLeads as bs

/-- Exact literal match: `leadsWith pat s` holds when `pat` is an initial
segment of `s`. -/
def leadsWith : List Char → List Char → Bool
  | [], _ => true
  | _ :: _, [] => false
  | a :: as, b :: bs => (a == b) && leadsWith as bs

/-- Python's substring test `sub in big`. -/
def containsSub (sub : List Char) : List Char → Bool
  | [] => sub.isEmpty
  | c :: rest => leadsWith sub (c :: rest) || containsSub sub rest

/-- Decimal value of a digit string, as computed by Python's `int`. -/
def digitsVal (d : List Char) : Nat :=
  d.foldl (fun a c => 10 * a + (c.toNat - 48)) 0

/-- The literal tail of the regex `(\d+)\s+in stock` (monitor.py line 44). -/
def inStockLit : List Char := "in stock".toList

/-- One anchored attempt of the regex `(\d+)\s+in stock` with `re.IGNORECASE`
at the head of `cs`: a non-empty maximal digit run, then a non-empty maximal
whitespace run, then the literal `in stock` case-insensitively.  (Backtracking
into the `\d+` or `\s+` runs can never help: the character that would be
given back cannot begin the next regex element, so the greedy maximal-run
match is the regex's semantics at this anchor.) -/
def matchInStockAt (cs : List Char) : Option Nat :=
  if (cs.takeWhile Char.isDigit).isEmpty then none
  else if ((cs.dropWhile Char.isDigit).takeWhile isSpaceChar).isEmpty then none
  else if ciLeads inStockLit ((cs.dropWhile Char.isDigit).dropWhile isSpaceChar)
  then some (digitsVal (cs.takeWhile Char.isDigit))
  else none

/-- Model of `re.search(r'(\d+)\s+in stock', text, re.IGNORECASE)`: try each start
position from the left, returning the captured integer of the first match
(monitor.py line 44). -/
def searchInStock : List Char → Option Nat
  | [] => none
  | c :: rest =>
    match matchInStockAt (c :: rest) with
    | some n => some n
    | none => searchInStock rest

/-- Model of `parse_stock(html, out_of_stock_text)` (monitor.py lines 41-53), on the
plain text of the page (`BeautifulSoup(...).get_text()` is modelled as the
identity on already-plain text; on a string input the `except` branch of the
source is unreachable).  Returns the matched integer, else `0` if the
out-of-stock marker occurs as a substring, else `float('inf')` (here `⊤`). -/
def parse_stock (html marker : List Char) : ℕ∞ :=
  match searchInStock html with
  | some n => (n : ℕ∞)
  | none => if containsSub marker html then 0 else ⊤

/-- Declarative occurrence of the pattern `(\d+)\s+in stock` (ignoring case)
inside `cs`, starting at index `i`, with captured value `n`. -/
def stockOccurrenceAt (cs : List Char) (i n : Nat) : Prop :=
  ∃ pre d w t post,
    cs = pre ++ d ++ w ++ t ++ post ∧
    pre.length = i ∧
    d ≠ [] ∧ (∀ c ∈ d, c.isDigit = true) ∧
    w ≠ [] ∧ (∀ c ∈ w, isSpaceChar c = true) ∧
    t.map Char.toLower = inStockLit.map Char.toLower ∧
    digitsVal d = n

/-- Predicate: `sub` occurs verbatim as a substring of `big` (Python's `in`). -/
def occursIn (sub big : List Char) : Prop :=
  ∃ s t, big = s ++ sub ++ t

/-- Outcome of one `scraper.get(url)` attempt inside `fetch_html`
(monitor.py lines 30-37): a 200 response with a body, a non-success HTTP
status, or a transport exception. -/
inductive AttemptResult where
  | success : List Char → AttemptResult
  | httpError : Nat → AttemptResult
  | exn : AttemptResult
deriving DecidableEq

/-- Externally visible action of `fetch_html`: an HTTP request attempt, or an
`asyncio.sleep` of the given number of seconds. -/
inductive FetchEvent where
  | request : FetchEvent
  | sleep : Nat → FetchEvent
deriving DecidableEq

/-- The retry loop of `fetch_html` (monitor.py lines 29-39), from attempt
number `attempt` with `remaining` attempts left.  `outcomes i` is the oracle
outcome of the `i`-th request.  On a 200 response the body is returned; on a
non-success status the source only prints a warning and retries; only the
`except` branch sleeps 2 seconds (monitor.py line 38).  Returns the result
(`none` after exhausting all attempts, line 39) and the event trace. -/
def fetchAux (outcomes : Nat → AttemptResult) :
    Nat → Nat → Option (List Char) × List FetchEvent
  | _, 0 => (none, [])
  | attempt, remaining + 1 =>
    match outcomes attempt with
    | AttemptResult.success body => (some body, [FetchEvent.request])
    | AttemptResult.httpError _ =>
      let r := fetchAux outcomes (attempt + 1) remaining
      (r.1, FetchEvent.request :: r.2)
    | AttemptResult.exn =>
      let r := fetchAux outcomes (attempt + 1) remaining
      (r.1, FetchEvent.request :: FetchEvent.sleep 2 :: r.2)

/-- Model of `fetch_html(url, retries)` (monitor.py lines 27-39).  The Python default
is `retries=3`. -/
def fetch_html (outcomes : Nat → AttemptResult) (retries : Nat) :
    Option (List Char) × List FetchEvent :=
  fetchAux outcomes 0 retries

/-- Number of request attempts recorded in a fetch trace. -/
def requestCount (evs : List FetchEvent) : Nat :=
  (evs.filter fun e => e == FetchEvent.request).length

/-- Number of backoff sleeps recorded in a fetch trace. -/
def sleepCount (evs : List FetchEvent) : Nat :=
  (evs.filter fun e => e == FetchEvent.sleep 2).length

/-- Model of `check_stock(url, out_of_stock_text)` (monitor.py lines 55-59): `None`
when the fetch failed, otherwise the parse of the fetched text. -/
def check_stock (fetched : Option (List Char)) (marker : List Char) :
    Option ℕ∞ :=
  match fetched with
  | none => none
  | some html => some (parse_stock html marker)

/-- A merchant record from the configuration (spec §6; accessed in
monitor.py lines 70-80).  `coupon_monthly` / `coupon_annual` are optional. -/
structure MerchantRec where
  name : List Char
  tag : List Char
  coupon_monthly : Option (List Char)
  coupon_annual : Option (List Char)

/-- A stock-target record from the configuration (monitor.py lines 70-76). -/
structure StockRec where
  url : List Char
  title : List Char
  price : List Char
  hardware_info : List Char

/-- Model of `escape_markdown` (monitor.py lines 23-25): returns its input unchanged,
performing no escaping. -/
def escape_markdown (text : List Char) : List Char :=
  text

/-- Python truthiness of `merchant.get('coupon_...')`: false for a missing
key and for an empty string. -/
def truthy : Option (List Char) → Bool
  | none => false
  | some s => !s.isEmpty

/-- The `Monthly：\x60...\x60` coupon line (monitor.py line 79), empty when the
coupon is absent or empty. -/
def monthlyLine (m : MerchantRec) : List Char :=
  match m.coupon_monthly with
  | some c => if c.isEmpty then [] else "Monthly：`".toList ++ c ++ "`".toList
  | none => []

/-- The `Annually：\x60...\x60` coupon line (monitor.py line 80). -/
def annualLine (m : MerchantRec) : List Char :=
  match m.coupon_annual with
  | some c => if c.isEmpty then [] else "Annually：`".toList ++ c ++ "`".toList
  | none => []

/-- Model of `"\n".join(filter(None, [monthly_coupon, annual_coupon]))`
(monitor.py line 81). -/
def couponInfo (m : MerchantRec) : List Char :=
  List.intercalate ("\n".toList)
    (([monthlyLine m, annualLine m]).filter fun s => !s.isEmpty)

/-- Model of `coupon_section` (monitor.py line 82). -/
def couponSection (m : MerchantRec) : List Char :=
  if (couponInfo m).isEmpty then "\n\n".toList
  else "\n\n".toList ++ couponInfo m ++ "\n\n".toList

/-- The message text composed by `send_notification`
(monitor.py lines 70-87). -/
def compose_message (m : MerchantRec) (st : StockRec) (q : ℕ∞) : List Char :=
  let title := m.name ++ "-".toList ++ st.title
  let tag := escape_markdown m.tag
  let price := escape_markdown st.price
  let hardware :=
    "[".toList ++ escape_markdown st.hardware_info ++ "](".toList ++
      st.url ++ ")".toList
  let stockInfo :=
    "🛒[库存：".toList ++ (if 0 < q then "有".toList else "无".toList) ++
      "](".toList ++ st.url ++ ")".toList
  title ++ "\n\n".toList ++ tag ++ "\n\nℹ️".toList ++ hardware ++
    couponSection m ++ "💰Price: ".toList ++ price ++ "\n\n".toList ++ stockInfo

/-- A call made to the chat-bot API by `send_notification`: sending a new
message (`bot.send_message`, monitor.py line 91) or attempting to edit the
message with the given identifier (`bot.edit_message_text`, line 100). -/
inductive NotifyCall where
  | sendMsg : NotifyCall
  | editMsg : Nat → NotifyCall
deriving DecidableEq

/-- Model of `send_notification(config, merchant, stock, stock_quantity, message_id)`
(monitor.py lines 67-108), abstracted over the chat API: `sendOutcome` is the
oracle for `bot.send_message` — `some id` when the send succeeds with that
message id, `none` when it raises (the exception is caught at lines 106-107
and the function returns `None`).  When `stock_quantity > 0` a new message is
sent and its id (or `None` on failure) returned; otherwise, if a previous
message id exists, that exact message is edited (edit failures are caught at
lines 104-105) and `None` is returned; with no previous id nothing happens.
Returns (return value, API calls made). -/
def send_notification (stock_quantity : ℕ∞) (message_id : Option Nat)
    (sendOutcome : Option Nat) : Option Nat × List NotifyCall :=
  if 0 < stock_quantity then
    (sendOutcome, [NotifyCall.sendMsg])
  else
    match message_id with
    | some m => (none, [NotifyCall.editMsg m])
    | none => (none, [])

/-- Type of `merchant_status`: Python dict from merchant name to a dict from URL to
the `{'in_stock': bool}` record (monitor.py line 114).  Modelled as an
association list whose lookup takes the most recent binding. -/
abbrev StatusMap := List (String × List (String × Bool))

/-- The in-memory loop state: `merchant_status` and `message_ids`
(monitor.py lines 114-115).  A stored message id may itself be `None` when
the send that produced it failed (line 136 stores whatever
`send_notification` returned). -/
structure LoopState where
  merchant_status : StatusMap
  message_ids : List (String × Option Nat)
deriving DecidableEq

/-- Model of `merchant_status.get(name, {}).get(url, {'in_stock': False})['in_stock']`
(monitor.py line 126). -/
def getStatus (st : StatusMap) (name url : String) : Bool :=
  (((st.lookup name).getD []).lookup url).getD false

/-- Model of `merchant_status.setdefault(name, {})[url] = {'in_stock': b}`
(monitor.py lines 135 and 140): fetch or create the inner dict and bind
`url` in it.  Shadowing cons has the same lookup semantics as in-place
dict assignment. -/
def setStatus (st : StatusMap) (name url : String) (b : Bool) : StatusMap :=
  (name, (url, b) :: (st.lookup name).getD []) :: st

/-- The body of the per-target loop (monitor.py lines 125-140) for one
target, given the parsed result `q` (the value of `await check_stock(...)`)
and the send oracle.  `None` skips the target (lines 128-130); a positive
count with cached state out-of-stock sends a new message and stores the
returned id (lines 133-136); a zero count with cached state in-stock edits
using `message_ids.get(url)` and leaves `message_ids` unchanged (lines
137-140); anything else does nothing.  Returns the new state and the chat
API calls made. -/
def processTarget (name url : String) (q : Option ℕ∞)
    (sendOutcome : Option Nat) (s : LoopState) : LoopState × List NotifyCall :=
  let previous := getStatus s.merchant_status name url
  match q with
  | none => (s, [])
  | some qty =>
    if 0 < qty ∧ previous = false then
      let r := send_notification qty none sendOutcome
      (⟨setStatus s.merchant_status name url true,
        (url, r.1) :: s.message_ids⟩, r.2)
    else if qty = 0 ∧ previous = true then
      let r := send_notification qty ((s.message_ids.lookup url).getD none)
        sendOutcome
      (⟨setStatus s.merchant_status name url false, s.message_ids⟩, r.2)
    else (s, [])

/-- One target of one poll cycle together with its oracles: the merchant
name, the URL, the parsed result `q = await check_stock(url, marker)`, and
the chat-API send oracle. -/
structure TargetStep where
  name : String
  url : String
  q : Option ℕ∞
  sendOutcome : Option Nat

/-- The flattened per-cycle iteration over all merchants' targets
(monitor.py lines 121-140), threading the loop state and concatenating the
chat API calls. -/
def processCycle : List TargetStep → LoopState → LoopState × List NotifyCall
  | [], s => (s, [])
  | t :: ts, s =>
    let r := processTarget t.name t.url t.q t.sendOutcome s
    let rest := processCycle ts r.1
    (rest.1, r.2 ++ rest.2)

/-- The state `main` starts from: `merchant_status = {}` and
`message_ids = {}` (monitor.py lines 114-115); nothing is ever persisted. -/
def initialState : LoopState :=
  ⟨[], []⟩

/-- Result of `acquire_lock` (monitor.py lines 13-21). -/
inductive LockOutcome where
  | acquired : LockOutcome
  | exited : Nat → LockOutcome
deriving DecidableEq

/-- Model of `acquire_lock` (monitor.py lines 13-21), abstracted over the OS lock
primitive: `flockResult` is the outcome of
`fcntl.flock(lock_file, LOCK_EX | LOCK_NB)` — `Except.error` when another
instance already holds the exclusive lock (the call raises `IOError`).  On
success the lock handle is returned and the process proceeds; on contention
the source calls `sys.exit(1)`. -/
def acquire_lock (flockResult : Except Unit Unit) : LockOutcome :=
  match flockResult with
  | Except.ok _ => LockOutcome.acquired
  | Except.error _ => LockOutcome.exited 1

theorem mem_takeWhile_pred {p : Char → Bool} :
    ∀ {l : List Char} {c : Char}, c ∈ l.takeWhile p → p c = true := by
  intro l
  induction l with
  | nil => intro c h; simp [List.takeWhile] at h
  | cons a t ih =>
    intro c h
    by_cases hpa : p a = true
    · rw [List.takeWhile_cons_of_pos hpa] at h
      rcases List.mem_cons.mp h with h | h
      · exact h ▸ hpa
      · exact ih h
    · rw [List.takeWhile_cons_of_neg hpa] at h
      simp at h

theorem takeWhile_append_all {p : Char → Bool} :
    ∀ (l₁ l₂ : List Char), (∀ c ∈ l₁, p c = true) →
      (l₁ ++ l₂).takeWhile p = l₁ ++ l₂.takeWhile p := by
  intro l₁
  induction l₁ with
  | nil => intro l₂ _; simp
  | cons a t ih =>
    intro l₂ h
    have ha : p a = true := h a (List.mem_cons_self a t)
    rw [List.cons_append, List.takeWhile_cons_of_pos ha,
      ih l₂ (fun c hc => h c (List.mem_cons_of_mem a hc)), List.cons_append]

theorem dropWhile_append_all {p : Char → Bool} :
    ∀ (l₁ l₂ : List Char), (∀ c ∈ l₁, p c = true) →
      (l₁ ++ l₂).dropWhile p = l₂.dropWhile p := by
  intro l₁
  induction l₁ with
  | nil => intro l₂ _; simp
  | cons a t ih =>
    intro l₂ h
    have ha : p a = true := h a (List.mem_cons_self a t)
    rw [List.cons_append, List.dropWhile_cons_of_pos ha,
      ih l₂ (fun c hc => h c (List.mem_cons_of_mem a hc))]

theorem isSpaceChar_cases {c : Char} (h : isSpaceChar c = true) :
    c = ' ' ∨ c = '\t' ∨ c = '\n' ∨ c = '\r' ∨ c = '\x0b' ∨ c = '\x0c' := by
  simp only [isSpaceChar, Bool.or_eq_true, beq_iff_eq] at h
  tauto

theorem isSpaceChar_not_digit {c : Char} (h : isSpaceChar c = true) :
    c.isDigit = false := by
  rcases isSpaceChar_cases h with h | h | h | h | h | h <;> subst h <;> decide

theorem isSpaceChar_of_toLower_i {c : Char} (h : c.toLower = 'i') :
    isSpaceChar c = false := by
  cases hsp : isSpaceChar c
  · rfl
  · rcases isSpaceChar_cases hsp with h' | h' | h' | h' | h' | h' <;>
      subst h' <;> exact absurd h (by decide)

theorem ciLeads_sound :
    ∀ (pat s : List Char), ciLeads pat s = true →
      ∃ t rest, s = t ++ rest ∧ t.map Char.toLower = pat.map Char.toLower := by
  intro pat
  induction pat with
  | nil => intro s _; exact ⟨[], s, rfl, rfl⟩
  | cons a as ih =>
    intro s h
    cases s with
    | nil => simp [ciLeads] at h
    | cons b bs =>
      simp only [ciLeads, Bool.and_eq_true, beq_iff_eq] at h
      obtain ⟨t, rest, hs, hmap⟩ := ih bs h.2
      exact ⟨b :: t, rest, by rw [List.cons_append, hs],
        by simp [hmap, h.1.symm]⟩

theorem ciLeads_complete :
    ∀ (pat t rest : List Char), t.map Char.toLower = pat.map Char.toLower →
      ciLeads pat (t ++ rest) = true := by
  intro pat
  induction pat with
  | nil =>
    intro t rest h
    have h' : List.map Char.toLower t = [] := by simpa using h
    have ht : t = [] := List.map_eq_nil_iff.mp h'
    subst ht; rfl
  | cons a as ih =>
    intro t rest h
    cases t with
    | nil => simp at h
    | cons b bs =>
      simp only [List.map_cons, List.cons.injEq] at h
      simp only [List.cons_append, ciLeads, Bool.and_eq_true, beq_iff_eq]
      exact ⟨h.1.symm, ih bs rest h.2⟩

theorem leadsWith_iff :
    ∀ (sub s : List Char), leadsWith sub s = true ↔ ∃ rest, s = sub ++ rest := by
  intro sub
  induction sub with
  | nil => intro s; simp [leadsWith]
  | cons a as ih =>
    intro s
    cases s with
    | nil =>
      simp only [leadsWith, List.cons_append]
      constructor
      · intro h; exact absurd h (by simp)
      · rintro ⟨rest, h⟩; exact absurd h (by simp)
    | cons b bs =>
      simp only [leadsWith, Bool.and_eq_true, beq_iff_eq, ih bs,
        List.cons_append, List.cons.injEq]
      constructor
      · rintro ⟨h1, rest, h2⟩; exact ⟨rest, h1.symm, h2⟩
      · rintro ⟨rest, h1, h2⟩; exact ⟨h1.symm, rest, h2⟩

theorem containsSub_iff (sub : List Char) :
    ∀ big, containsSub sub big = true ↔ occursIn sub big := by
  intro big
  induction big with
  | nil =>
    simp only [containsSub, occursIn]
    constructor
    · intro h
      have hs : sub = [] := by
        cases sub with
        | nil => rfl
        | cons a t => simp [List.isEmpty] at h
      exact ⟨[], [], by simp [hs]⟩
    · rintro ⟨s, t, h⟩
      have := List.append_eq_nil.mp (List.append_eq_nil.mp h.symm).1
      simp [this.2, List.isEmpty]
  | cons c rest ih =>
    simp only [containsSub, Bool.or_eq_true]
    constructor
    · intro h
      rcases h with h | h
      · obtain ⟨r, hr⟩ := (leadsWith_iff sub (c :: rest)).mp h
        exact ⟨[], r, by simpa using hr⟩
      · obtain ⟨s, t, hst⟩ := ih.mp h
        exact ⟨c :: s, t, by simp [hst]⟩
    · rintro ⟨s, t, hst⟩
      cases s with
      | nil =>
        left
        exact (leadsWith_iff sub (c :: rest)).mpr ⟨t, by simpa using hst⟩
      | cons a s =>
        right
        rw [List.cons_append, List.cons_append, List.cons.injEq] at hst
        exact ih.mpr ⟨s, t, hst.2⟩

theorem matchInStockAt_eq_some_iff {xs : List Char} {n : Nat} :
    matchInStockAt xs = some n ↔
      (xs.takeWhile Char.isDigit).isEmpty = false ∧
      ((xs.dropWhile Char.isDigit).takeWhile isSpaceChar).isEmpty = false ∧
      ciLeads inStockLit ((xs.dropWhile Char.isDigit).dropWhile isSpaceChar)
        = true ∧
      digitsVal (xs.takeWhile Char.isDigit) = n := by
  unfold matchInStockAt
  split_ifs <;> simp_all

theorem stockOccurrenceAt_of_matchAt {cs : List Char} {i n : Nat}
    (h : matchInStockAt (cs.drop i) = some n) : stockOccurrenceAt cs i n := by
  obtain ⟨h1, h2, h3, h4⟩ := matchInStockAt_eq_some_iff.mp h
  obtain ⟨t, post, hr2, hmap⟩ :=
    ciLeads_sound inStockLit ((cs.drop i).dropWhile Char.isDigit
      |>.dropWhile isSpaceChar) h3
  have hdel : cs.drop i =
      (cs.drop i).takeWhile Char.isDigit ++
      ((cs.drop i).dropWhile Char.isDigit).takeWhile isSpaceChar ++
      (t ++ post) := by
    rw [← hr2, List.append_assoc, List.takeWhile_append_dropWhile,
      List.takeWhile_append_dropWhile]
  have hne : cs.drop i ≠ [] := by
    intro hnil
    rw [hnil] at h1
    simp [List.takeWhile, List.isEmpty] at h1
  refine ⟨cs.take i, (cs.drop i).takeWhile Char.isDigit,
    ((cs.drop i).dropWhile Char.isDigit).takeWhile isSpaceChar, t, post,
    ?_, ?_, ?_, ?_, ?_, ?_, hmap, h4⟩
  · conv_lhs => rw [← List.take_append_drop i cs, hdel]
    simp [List.append_assoc]
  · have hlt : i < cs.length := List.length_lt_of_drop_ne_nil hne
    simp [List.length_take]
    omega
  · intro hd
    rw [hd] at h1
    simp [List.isEmpty] at h1
  · exact fun c hc => mem_takeWhile_pred hc
  · intro hw
    rw [hw] at h2
    simp [List.isEmpty] at h2
  · exact fun c hc => mem_takeWhile_pred hc

theorem matchAt_of_stockOccurrenceAt {cs : List Char} {i n : Nat}
    (h : stockOccurrenceAt cs i n) : matchInStockAt (cs.drop i) = some n := by
  obtain ⟨pre, d, w, t, post, hcs, hlen, hd, hdall, hw, hwall, hmap, hval⟩ := h
  have hdrop : cs.drop i = d ++ (w ++ (t ++ post)) := by
    have h' : cs = pre ++ (d ++ (w ++ (t ++ post))) := by
      rw [hcs]
      simp [List.append_assoc]
    rw [h', ← hlen, List.drop_left]
  obtain ⟨wh, wt, hwc⟩ : ∃ wh wt, w = wh :: wt := by
    cases w with
    | nil => exact absurd rfl hw
    | cons wh wt => exact ⟨wh, wt, rfl⟩
  have hwh : isSpaceChar wh = true := hwall wh (hwc ▸ List.mem_cons_self wh wt)
  obtain ⟨th, tt, htc⟩ : ∃ th tt, t = th :: tt := by
    cases t with
    | nil => exact absurd hmap (by decide)
    | cons th tt => exact ⟨th, tt, rfl⟩
  have hth : th.toLower = 'i' := by
    rw [htc] at hmap
    have hlit : inStockLit.map Char.toLower =
        'i' :: "n stock".toList.map Char.toLower := by decide
    rw [hlit, List.map_cons, List.cons.injEq] at hmap
    exact hmap.1
  have ht1 : (cs.drop i).takeWhile Char.isDigit = d := by
    rw [hdrop, takeWhile_append_all d _ hdall, hwc, List.cons_append,
      List.takeWhile_cons_of_neg (by simp [isSpaceChar_not_digit hwh]),
      List.append_nil]
  have ht2 : (cs.drop i).dropWhile Char.isDigit = w ++ (t ++ post) := by
    rw [hdrop, dropWhile_append_all d _ hdall, hwc, List.cons_append,
      List.dropWhile_cons_of_neg (by simp [isSpaceChar_not_digit hwh]),
      ← List.cons_append]
  have ht3 : (w ++ (t ++ post)).takeWhile isSpaceChar = w := by
    rw [takeWhile_append_all w _ hwall, htc, List.cons_append,
      List.takeWhile_cons_of_neg (by simp [isSpaceChar_of_toLower_i hth]),
      List.append_nil]
  have ht4 : (w ++ (t ++ post)).dropWhile isSpaceChar = t ++ post := by
    rw [dropWhile_append_all w _ hwall, htc, List.cons_append,
      List.dropWhile_cons_of_neg (by simp [isSpaceChar_of_toLower_i hth]),
      ← List.cons_append]
  apply matchInStockAt_eq_some_iff.mpr
  refine ⟨?_, ?_, ?_, ?_⟩
  · rw [ht1]
    cases d with
    | nil => exact absurd rfl hd
    | cons a l => rfl
  · rw [ht2, ht3, hwc]
    rfl
  · rw [ht2, ht4]
    exact ciLeads_complete inStockLit t post hmap
  · rw [ht1]
    exact hval

theorem matchInStockAt_nil : matchInStockAt [] = none := rfl

theorem searchInStock_eq_none {cs : List Char}
    (h : ∀ i, matchInStockAt (cs.drop i) = none) : searchInStock cs = none := by
  induction cs with
  | nil => rfl
  | cons c rest ih =>
    have h0 := h 0
    rw [List.drop_zero] at h0
    simp only [searchInStock, h0]
    exact ih fun i => by
      have hi := h (i + 1)
      rwa [List.drop_succ_cons] at hi

theorem searchInStock_eq_some {cs : List Char} {n : Nat} :
    ∀ {i : Nat}, matchInStockAt (cs.drop i) = some n →
      (∀ j, j < i → matchInStockAt (cs.drop j) = none) →
      searchInStock cs = some n := by
  induction cs with
  | nil =>
    intro i hm _
    rw [List.drop_nil, matchInStockAt_nil] at hm
    exact absurd hm (by simp)
  | cons c rest ih =>
    intro i hm hmin
    cases i with
    | zero =>
      rw [List.drop_zero] at hm
      simp only [searchInStock, hm]
    | succ i =>
      have h0 := hmin 0 (Nat.succ_pos i)
      rw [List.drop_zero] at h0
      simp only [searchInStock, h0]
      rw [List.drop_succ_cons] at hm
      exact ih hm fun j hj => by
        have hj' := hmin (j + 1) (Nat.succ_lt_succ hj)
        rwa [List.drop_succ_cons] at hj'

/-- C1: for every input text, `parse_stock` returns the captured integer of
the (leftmost) occurrence of the case-insensitive pattern `N in stock` when
one exists; otherwise it returns `0` exactly when the configured out-of-stock
marker occurs as a substring of the text; otherwise it returns the unbounded
sentinel `⊤`, which compares greater than `0` — in that precedence order. -/
theorem parse_stock_spec (html marker : List Char) :
    (∀ i n, stockOccurrenceAt html i n →
      (∀ j m, stockOccurrenceAt html j m → i ≤ j) →
      parse_stock html marker = (n : ℕ∞)) ∧
    ((∀ i n, ¬ stockOccurrenceAt html i n) → occursIn marker html →
      parse_stock html marker = 0) ∧
    ((∀ i n, ¬ stockOccurrenceAt html i n) → ¬ occursIn marker html →
      parse_stock html marker = ⊤ ∧ (0 : ℕ∞) < ⊤) := by
  refine ⟨?_, ?_, ?_⟩
  · intro i n hocc hmin
    have hm := matchAt_of_stockOccurrenceAt hocc
    have hs : searchInStock html = some n :=
      searchInStock_eq_some hm fun j hj => by
        cases hmj : matchInStockAt (html.drop j) with
        | none => rfl
        | some m =>
          have hle := hmin j m (stockOccurrenceAt_of_matchAt hmj)
          omega
    simp [parse_stock, hs]
  · intro hno hocc
    have hs : searchInStock html = none :=
      searchInStock_eq_none fun i => by
        cases hmi : matchInStockAt (html.drop i) with
        | none => rfl
        | some m => exact absurd (stockOccurrenceAt_of_matchAt hmi) (hno i m)
    obtain ⟨s, t, hst⟩ := hocc
    have hc : containsSub marker html = true :=
      (containsSub_iff marker html).mpr ⟨s, t, hst⟩
    simp [parse_stock, hs, hc]
  · intro hno hocc
    have hs : searchInStock html = none :=
      searchInStock_eq_none fun i => by
        cases hmi : matchInStockAt (html.drop i) with
        | none => rfl
        | some m => exact absurd (stockOccurrenceAt_of_matchAt hmi) (hno i m)
    have hc : containsSub marker html = false := by
      cases hcc : containsSub marker html
      · rfl
      · exact absurd ((containsSub_iff marker html).mp hcc) hocc
    refine ⟨by simp [parse_stock, hs, hc], by decide⟩

/-- Witness for C1: on the text `5 in stock` (an occurrence of the pattern at
index 0 with value 5, necessarily leftmost), `parse_stock` returns 5. -/
theorem parse_stock_spec_witness :
    parse_stock ("5 in stock".toList) ("缺货".toList) = (5 : ℕ∞) :=
  (parse_stock_spec ("5 in stock".toList) ("缺货".toList)).1 0 5
    ⟨[], ['5'], [' '], "in stock".toList, [], by decide, by decide, by decide,
      by decide, by decide, by decide, by decide, by decide⟩
    (fun j m _ => Nat.zero_le j)

theorem getStatus_setStatus_same (st : StatusMap) (name url : String)
    (b : Bool) : getStatus (setStatus st name url b) name url = b := by
  simp [getStatus, setStatus, List.lookup]

theorem processTarget_none (name url : String) (so : Option Nat)
    (s : LoopState) : processTarget name url none so s = (s, []) := rfl

theorem processTarget_send (name url : String) {qty : ℕ∞} (so : Option Nat)
    (s : LoopState) (hq : 0 < qty)
    (hprev : getStatus s.merchant_status name url = false) :
    processTarget name url (some qty) so s =
      (⟨setStatus s.merchant_status name url true, (url, so) :: s.message_ids⟩,
        [NotifyCall.sendMsg]) := by
  simp [processTarget, hq, hprev, send_notification]

theorem processTarget_edit_some (name url : String) (so : Option Nat)
    (s : LoopState) (m : Nat)
    (hprev : getStatus s.merchant_status name url = true)
    (hm : (s.message_ids.lookup url).getD none = some m) :
    processTarget name url (some 0) so s =
      (⟨setStatus s.merchant_status name url false, s.message_ids⟩,
        [NotifyCall.editMsg m]) := by
  simp [processTarget, hprev, send_notification, hm]

theorem processTarget_edit_none (name url : String) (so : Option Nat)
    (s : LoopState)
    (hprev : getStatus s.merchant_status name url = true)
    (hm : (s.message_ids.lookup url).getD none = none) :
    processTarget name url (some 0) so s =
      (⟨setStatus s.merchant_status name url false, s.message_ids⟩, []) := by
  simp [processTarget, hprev, send_notification, hm]

theorem processTarget_stutter (name url : String) {qty : ℕ∞}
    (so : Option Nat) (s : LoopState)
    (h1 : ¬(0 < qty ∧ getStatus s.merchant_status name url = false))
    (h2 : ¬(qty = 0 ∧ getStatus s.merchant_status name url = true)) :
    processTarget name url (some qty) so s = (s, []) := by
  simp only [processTarget]
  rw [if_neg h1, if_neg h2]

/-- C2: for every (merchant, url) poll step, a new message is sent only when
the parsed count is positive while the cached state is out-of-stock, an
existing message is edited only when the parsed count is zero while the
cached state is in-stock, and a step that leaves the cached state unchanged
makes no chat API call at all. -/
theorem notify_only_on_transitions (name url : String) (q : Option ℕ∞)
    (so : Option Nat) (s : LoopState) :
    (NotifyCall.sendMsg ∈ (processTarget name url q so s).2 →
      getStatus s.merchant_status name url = false ∧
      ∃ qty, q = some qty ∧ 0 < qty) ∧
    (∀ m, NotifyCall.editMsg m ∈ (processTarget name url q so s).2 →
      getStatus s.merchant_status name url = true ∧ q = some 0) ∧
    (getStatus (processTarget name url q so s).1.merchant_status name url =
        getStatus s.merchant_status name url →
      (processTarget name url q so s).2 = []) := by
  cases q with
  | none => simp [processTarget_none]
  | some qty =>
    cases hprev : getStatus s.merchant_status name url with
    | false =>
      by_cases hq : 0 < qty
      · rw [processTarget_send name url so s hq hprev]
        refine ⟨fun _ => ⟨rfl, qty, rfl, hq⟩, fun m hm => by simp at hm, ?_⟩
        intro hst
        rw [getStatus_setStatus_same] at hst
        exact absurd hst (by simp)
      · rw [processTarget_stutter name url so s (fun hc => hq hc.1)
          (fun hc => by rw [hprev] at hc; exact absurd hc.2 (by simp))]
        simp
    | true =>
      by_cases hq0 : qty = 0
      · subst hq0
        cases hm : (s.message_ids.lookup url).getD none with
        | some m =>
          rw [processTarget_edit_some name url so s m hprev hm]
          refine ⟨fun h => by simp at h, fun m' hm' => ⟨rfl, rfl⟩, ?_⟩
          intro hst
          rw [getStatus_setStatus_same] at hst
          exact absurd hst (by simp)
        | none =>
          rw [processTarget_edit_none name url so s hprev hm]
          exact ⟨fun h => by simp at h, fun m' hm' => by simp at hm',
            fun _ => rfl⟩
      · rw [processTarget_stutter name url so s
          (fun hc => by rw [hprev] at hc; exact absurd hc.2 (by simp))
          (fun hc => hq0 hc.1)]
        simp

/-- Witness for C2: a step with parsed count 0 from a cached in-stock state
with a stored message id performs an edit, and the theorem recovers the
transition conditions from that call. -/
theorem notify_only_on_transitions_witness :
    getStatus [(("m" : String), [(("u" : String), true)])] ("m") ("u") = true ∧
    (some (0 : ℕ∞)) = some 0 :=
  (notify_only_on_transitions ("m") ("u") (some 0) none
    ⟨[(("m" : String), [(("u" : String), true)])],
      [(("u" : String), some 7)]⟩).2.1 7 (by decide)

/-- C3: a target transitioning IN_STOCK → OUT_OF_STOCK causes an edit of
exactly the message identifier returned by the prior (successful) send for
that URL, and no new send on that transition: the deplete step's only chat
API call is `editMsg m` where `m` is the id the send stored. -/
theorem send_then_deplete_edits_sent_id (name url : String) (qty : ℕ∞)
    (m : Nat) (so2 : Option Nat) (s : LoopState)
    (hprev : getStatus s.merchant_status name url = false) (hq : 0 < qty) :
    (processTarget name url (some 0) so2
      (processTarget name url (some qty) (some m) s).1).2 =
      [NotifyCall.editMsg m] := by
  rw [processTarget_send name url (some m) s hq hprev]
  rw [processTarget_edit_some name url so2 _ m
    (getStatus_setStatus_same _ _ _ _) (by simp [List.lookup])]

/-- Witness for C3: from an empty cache, a send with id 7 followed by a
deplete step edits exactly message 7. -/
theorem send_then_deplete_edits_sent_id_witness :
    (processTarget ("m") ("u") (some 0) none
      (processTarget ("m") ("u") (some 5) (some 7) initialState).1).2 =
      [NotifyCall.editMsg 7] :=
  send_then_deplete_edits_sent_id ("m") ("u") 5 7 none initialState
    (by decide) (by decide)

/-- C5: when the fetch has failed after exhausting its retries, `check_stock`
yields the failure signal and the loop body skips the target: the cached
state and the stored message identifiers are returned unchanged and no chat
API call is made. -/
theorem skip_on_failure (name url : String) (marker : List Char)
    (outcomes : Nat → AttemptResult) (retries : Nat) (so : Option Nat)
    (s : LoopState) (h : (fetch_html outcomes retries).1 = none) :
    check_stock (fetch_html outcomes retries).1 marker = none ∧
    processTarget name url
      (check_stock (fetch_html outcomes retries).1 marker) so s = (s, []) := by
  rw [h]
  exact ⟨rfl, rfl⟩

/-- Witness for C5: a single-attempt fetch whose attempt raises exhausts its
retries, and the loop body leaves the state untouched with no calls. -/
theorem skip_on_failure_witness :
    check_stock (fetch_html (fun _ => AttemptResult.exn) 1).1 ("缺货".toList)
      = none ∧
    processTarget ("m") ("u")
      (check_stock (fetch_html (fun _ => AttemptResult.exn) 1).1
        ("缺货".toList)) none initialState = (initialState, []) :=
  skip_on_failure ("m") ("u") ("缺货".toList) (fun _ => AttemptResult.exn) 1
    none initialState rfl

/-- C7: the state table `main` starts from is empty, and a lookup of any
(merchant, url) pair with no cached entry yields `false` (previously out of
stock); hence no in-stock memory survives a restart. -/
theorem fresh_start_out_of_stock (name url : String) (st : StatusMap)
    (h : ((st.lookup name).getD []).lookup url = none) :
    initialState.merchant_status = [] ∧ initialState.message_ids = [] ∧
    getStatus st name url = false := by
  refine ⟨rfl, rfl, ?_⟩
  simp [getStatus, h]

/-- Witness for C7: a table holding another URL has no entry for `u`, so `u`
is treated as out of stock. -/
theorem fresh_start_out_of_stock_witness :
    initialState.merchant_status = [] ∧ initialState.message_ids = [] ∧
    getStatus [(("m" : String), [(("v" : String), true)])] ("m") ("u")
      = false :=
  fresh_start_out_of_stock ("m") ("u")
    [(("m" : String), [(("v" : String), true)])] (by decide)

/-- C8: when the exclusive lock is already held (the `flock` call raises),
`acquire_lock` terminates the process with exit code 1; when the lock is
free it returns the acquired handle and the process proceeds. -/
theorem acquire_lock_spec :
    acquire_lock (Except.error ()) = LockOutcome.exited 1 ∧
    acquire_lock (Except.ok ()) = LockOutcome.acquired :=
  ⟨rfl, rfl⟩

/-- C10: when the send of a new in-stock notification fails,
`send_notification` returns `None`; the loop still marks the target
IN_STOCK and stores `None` as the URL's message handle, so the subsequent
IN_STOCK → OUT_OF_STOCK transition performs no edit and sends no message. -/
theorem failed_send_then_deplete (name url : String) (qty : ℕ∞)
    (so2 : Option Nat) (s : LoopState)
    (hprev : getStatus s.merchant_status name url = false) (hq : 0 < qty) :
    (send_notification qty none none).1 = none ∧
    getStatus (processTarget name url (some qty) none s).1.merchant_status
      name url = true ∧
    (processTarget name url (some qty) none s).1.message_ids.lookup url
      = some none ∧
    processTarget name url (some 0) so2
        (processTarget name url (some qty) none s).1 =
      (⟨setStatus
          (processTarget name url (some qty) none s).1.merchant_status
          name url false,
        (processTarget name url (some qty) none s).1.message_ids⟩, []) := by
  rw [processTarget_send name url none s hq hprev]
  refine ⟨by simp [send_notification, hq], getStatus_setStatus_same _ _ _ _,
    by simp [List.lookup], ?_⟩
  rw [processTarget_edit_none name url so2 _
    (getStatus_setStatus_same _ _ _ _) (by simp [List.lookup])]

/-- Witness for C10: a failed send from the empty cache stores `None`, and
the following deplete step makes no chat API call. -/
theorem failed_send_then_deplete_witness :
    (send_notification 5 none none).1 = none ∧
    getStatus (processTarget ("m") ("u") (some 5) none
      initialState).1.merchant_status ("m") ("u") = true ∧
    (processTarget ("m") ("u") (some 5) none
      initialState).1.message_ids.lookup ("u") = some none ∧
    processTarget ("m") ("u") (some 0) (some 9)
        (processTarget ("m") ("u") (some 5) none initialState).1 =
      (⟨setStatus
          (processTarget ("m") ("u") (some 5) none
            initialState).1.merchant_status ("m") ("u") false,
        (processTarget ("m") ("u") (some 5) none
          initialState).1.message_ids⟩, []) :=
  failed_send_then_deplete ("m") ("u") 5 (some 9) initialState (by decide)
    (by decide)

theorem requestCount_cons_request (evs : List FetchEvent) :
    requestCount (FetchEvent.request :: evs) = requestCount evs + 1 := by
  simp [requestCount]

theorem requestCount_cons_sleep (sec : Nat) (evs : List FetchEvent) :
    requestCount (FetchEvent.sleep sec :: evs) = requestCount evs := by
  simp [requestCount]

theorem sleepCount_cons_request (evs : List FetchEvent) :
    sleepCount (FetchEvent.request :: evs) = sleepCount evs := by
  simp [sleepCount]

theorem sleepCount_cons_sleep_two (evs : List FetchEvent) :
    sleepCount (FetchEvent.sleep 2 :: evs) = sleepCount evs + 1 := by
  simp [sleepCount]

theorem fetchAux_request_count (outcomes : Nat → AttemptResult) :
    ∀ (r a : Nat), requestCount (fetchAux outcomes a r).2 ≤ r := by
  intro r
  induction r with
  | zero => intro a; simp [fetchAux, requestCount]
  | succ r ih =>
    intro a
    cases ho : outcomes a with
    | success body => simp [fetchAux, ho, requestCount]
    | httpError code =>
      have hr := ih (a + 1)
      simp [fetchAux, ho, requestCount_cons_request]
      omega
    | exn =>
      have hr := ih (a + 1)
      simp [fetchAux, ho, requestCount_cons_request, requestCount_cons_sleep]
      omega

theorem fetchAux_none_of_no_success (outcomes : Nat → AttemptResult) :
    ∀ (r a : Nat),
      (∀ i, a ≤ i → i < a + r → ∀ b, outcomes i ≠ AttemptResult.success b) →
      (fetchAux outcomes a r).1 = none := by
  intro r
  induction r with
  | zero => intro a _; rfl
  | succ r ih =>
    intro a h
    cases ho : outcomes a with
    | success body =>
      exact absurd ho (h a (Nat.le_refl a) (by omega) body)
    | httpError code =>
      simp only [fetchAux, ho]
      exact ih (a + 1) fun i h1 h2 b => h i (by omega) (by omega) b
    | exn =>
      simp only [fetchAux, ho]
      exact ih (a + 1) fun i h1 h2 b => h i (by omega) (by omega) b

theorem fetchAux_no_sleep_of_no_exn (outcomes : Nat → AttemptResult) :
    ∀ (r a : Nat),
      (∀ i, a ≤ i → i < a + r → outcomes i ≠ AttemptResult.exn) →
      ∀ sec, FetchEvent.sleep sec ∉ (fetchAux outcomes a r).2 := by
  intro r
  induction r with
  | zero => intro a _ sec; simp [fetchAux]
  | succ r ih =>
    intro a h sec
    cases ho : outcomes a with
    | success body => simp [fetchAux, ho]
    | httpError code =>
      simp only [fetchAux, ho, List.mem_cons]
      rintro (hc | hc)
      · exact FetchEvent.noConfusion hc
      · exact ih (a + 1) (fun i h1 h2 => h i (by omega) (by omega)) sec hc
    | exn => exact absurd ho (h a (Nat.le_refl a) (by omega))

theorem fetchAux_sleep_count_all_exn (outcomes : Nat → AttemptResult) :
    ∀ (r a : Nat), (∀ i, a ≤ i → i < a + r → outcomes i = AttemptResult.exn) →
      sleepCount (fetchAux outcomes a r).2 = r := by
  intro r
  induction r with
  | zero => intro a _; simp [fetchAux, sleepCount]
  | succ r ih =>
    intro a h
    have ho : outcomes a = AttemptResult.exn := h a (Nat.le_refl a) (by omega)
    have hrest := ih (a + 1) fun i h1 h2 => h i (by omega) (by omega)
    simp [fetchAux, ho, sleepCount_cons_request, sleepCount_cons_sleep_two]
    omega

/-- C4 (amended): `fetch_html` performs at most `retries` request attempts
and returns the failure signal `None` (distinct from a parsed count of zero)
instead of raising once no attempt succeeded; the fixed 2-unit backoff is
waited exactly after attempts that end in a transport exception — an attempt
that ends in a non-success HTTP status is retried immediately with no
backoff wait. -/
theorem fetch_html_retry_spec (outcomes : Nat → AttemptResult)
    (retries : Nat) :
    requestCount (fetch_html outcomes retries).2 ≤ retries ∧
    ((∀ i, i < retries → ∀ b, outcomes i ≠ AttemptResult.success b) →
      (fetch_html outcomes retries).1 = none) ∧
    ((∀ i, i < retries → outcomes i ≠ AttemptResult.exn) →
      ∀ sec, FetchEvent.sleep sec ∉ (fetch_html outcomes retries).2) ∧
    ((∀ i, i < retries → outcomes i = AttemptResult.exn) →
      sleepCount (fetch_html outcomes retries).2 = retries) := by
  refine ⟨fetchAux_request_count outcomes retries 0, ?_, ?_, ?_⟩
  · intro h
    exact fetchAux_none_of_no_success outcomes retries 0
      fun i _ h2 b => h i (by omega) b
  · intro h
    exact fetchAux_no_sleep_of_no_exn outcomes retries 0
      fun i _ h2 => h i (by omega)
  · intro h
    exact fetchAux_sleep_count_all_exn outcomes retries 0
      fun i _ h2 => h i (by omega)

/-- Witness for C4's amended theorem: with three attempts all raising,
`fetch_html` returns the failure signal and sleeps 2 units three times. -/
theorem fetch_html_retry_spec_witness :
    (fetch_html (fun _ => AttemptResult.exn) 3).1 = none ∧
    sleepCount (fetch_html (fun _ => AttemptResult.exn) 3).2 = 3 :=
  ⟨(fetch_html_retry_spec (fun _ => AttemptResult.exn) 3).2.1
      (fun _ _ _ h => AttemptResult.noConfusion h),
    (fetch_html_retry_spec (fun _ => AttemptResult.exn) 3).2.2.2
      (fun _ _ => rfl)⟩

/-- C4 counterexample: with every attempt ending in a non-success HTTP
status (500), the claim says a fixed 2-unit backoff is waited before each
retry; the code only prints a warning and retries at once, so the trace of
the run contains three requests and no sleep at all. -/
theorem fetch_html_status_no_backoff :
    fetch_html (fun _ => AttemptResult.httpError 500) 3 =
      (none, [FetchEvent.request, FetchEvent.request, FetchEvent.request]) :=
  rfl

theorem processCycle_append (ts1 ts2 : List TargetStep) :
    ∀ s : LoopState, processCycle (ts1 ++ ts2) s =
      ((processCycle ts2 (processCycle ts1 s).1).1,
        (processCycle ts1 s).2 ++
          (processCycle ts2 (processCycle ts1 s).1).2) := by
  induction ts1 with
  | nil => intro s; simp [processCycle]
  | cons t ts ih =>
    intro s
    simp [processCycle, ih, List.append_assoc]

/-- C6: per-target failures are isolated.  A target whose fetch/parse failed
contributes nothing and the remaining targets of the cycle are processed
exactly as they would have been from the same state; and regardless of any
per-target outcomes (fetch failures, notification failures encoded in the
oracles), the targets after any prefix of the cycle are still processed, so
no per-target failure aborts the cycle. -/
theorem per_target_failure_isolated (t : TargetStep)
    (ts1 ts2 : List TargetStep) (s : LoopState) (hfail : t.q = none) :
    processCycle (t :: ts2) s = processCycle ts2 s ∧
    (processCycle (ts1 ++ ts2) s).1 =
      (processCycle ts2 (processCycle ts1 s).1).1 ∧
    (processCycle (ts1 ++ ts2) s).2 =
      (processCycle ts1 s).2 ++
        (processCycle ts2 (processCycle ts1 s).1).2 := by
  refine ⟨?_, ?_, ?_⟩
  · simp [processCycle, hfail, processTarget_none]
  · rw [processCycle_append]
  · rw [processCycle_append]

/-- Witness for C6: a failed target followed by a succeeding one leaves the
succeeding target's processing intact. -/
theorem per_target_failure_isolated_witness :
    processCycle
        [⟨("m"), ("u"), none, none⟩, ⟨("m"), ("v"), some 5, some 7⟩]
        initialState =
      processCycle [⟨("m"), ("v"), some 5, some 7⟩] initialState :=
  (per_target_failure_isolated ⟨("m"), ("u"), none, none⟩ []
    [⟨("m"), ("v"), some 5, some 7⟩] initialState rfl).1

/-- C9: `escape_markdown` is the identity — it escapes nothing — and hence
the merchant tag, the price and the hardware description are embedded
verbatim (as contiguous sublists) in the Markdown-parsed message text that
`send_notification` composes. -/
theorem escape_markdown_identity (text : List Char) (m : MerchantRec)
    (st : StockRec) (q : ℕ∞) :
    escape_markdown text = text ∧
    (∃ a b, compose_message m st q = a ++ m.tag ++ b) ∧
    (∃ a b, compose_message m st q = a ++ st.price ++ b) ∧
    (∃ a b, compose_message m st q = a ++ st.hardware_info ++ b) := by
  refine ⟨rfl, ?_, ?_, ?_⟩
  · refine ⟨m.name ++ "-".toList ++ st.title ++ "\n\n".toList,
      "\n\nℹ️".toList ++
        ("[".toList ++ st.hardware_info ++ "](".toList ++ st.url ++
          ")".toList) ++
        couponSection m ++ "💰Price: ".toList ++ st.price ++ "\n\n".toList ++
        ("🛒[库存：".toList ++ (if 0 < q then "有".toList else "无".toList) ++
          "](".toList ++ st.url ++ ")".toList), ?_⟩
    simp [compose_message, escape_markdown, List.append_assoc]
  · refine ⟨m.name ++ "-".toList ++ st.title ++ "\n\n".toList ++ m.tag ++
      "\n\nℹ️".toList ++
        ("[".toList ++ st.hardware_info ++ "](".toList ++ st.url ++
          ")".toList) ++
        couponSection m ++ "💰Price: ".toList,
      "\n\n".toList ++
        ("🛒[库存：".toList ++ (if 0 < q then "有".toList else "无".toList) ++
          "](".toList ++ st.url ++ ")".toList), ?_⟩
    simp [compose_message, escape_markdown, List.append_assoc]
  · refine ⟨m.name ++ "-".toList ++ st.title ++ "\n\n".toList ++ m.tag ++
      "\n\nℹ️".toList ++ "[".toList,
      "](".toList ++ st.url ++ ")".toList ++
        couponSection m ++ "💰Price: ".toList ++ st.price ++ "\n\n".toList ++
        ("🛒[库存：".toList ++ (if 0 < q then "有".toList else "无".toList) ++
          "](".toList ++ st.url ++ ")".toList), ?_⟩
    simp [compose_message, escape_markdown, List.append_assoc]
